import Mathlib

/-!
Verification development for the memory and identity substrate of the ANGLE
shading-language translator: the symbol unique-id registry
(src/compiler/translator/SymbolUniqueId.h), the pool arena allocator
(exercised by src/common/PoolAlloc_unittest.cpp), and the WGSL program
prelude capability bridge (WGSLProgramPrelude.h).
-/

set_option autoImplicit false

namespace sh

/-- Embedding of sh::TSymbolUniqueId from SymbolUniqueId.h: a wrapper around a
signed machine integer field mId. -/
structure TSymbolUniqueId where
  mId : Int
deriving DecidableEq, Repr

/-- Embedding of TSymbolUniqueId::get, which returns the stored integer. -/
def TSymbolUniqueId.get (id : TSymbolUniqueId) : Int := id.mId

/-- Embedding of the defaulted copy constructor and copy assignment: a plain
value copy of the single integer member. -/
def TSymbolUniqueId.copy (id : TSymbolUniqueId) : TSymbolUniqueId := ⟨id.mId⟩

/-- Embedding of TSymbolUniqueId::operator==, which compares the mId fields. -/
def TSymbolUniqueId.beq (a b : TSymbolUniqueId) : Bool := a.mId == b.mId

/-- Embedding of TSymbolUniqueId::operator!=, defined in the source as the
negation of operator==. -/
def TSymbolUniqueId.bne (a b : TSymbolUniqueId) : Bool := !(TSymbolUniqueId.beq a b)

/-- Embedding of TSymbolUniqueId::kInvalid, the sentinel id with value -1. -/
def TSymbolUniqueId.kInvalid : TSymbolUniqueId := ⟨-1⟩

/-- Embedding of std::hash of sh::TSymbolUniqueId: the operator returns
key.get() as a size_t, so the signed value is converted to the unsigned
machine word modulo 2 to the word width w. -/
def hashSymbolUniqueId (w : Nat) (key : TSymbolUniqueId) : Nat :=
  (key.get % ((2 : Int) ^ w)).toNat

/-- Modelled from the spec: the largest id of the static built-in numbering
space, fixed at compiler build time (the generated built-in table is not part
of the visible sources). Built-in ids occupy [0, kLastBuiltInId]. -/
def kLastBuiltInId : Int := 3999

/-- Modelled from the spec: a built-in id is a fixed constant in the static
range, assigned at compiler build time and never minted. -/
def isBuiltInId (id : TSymbolUniqueId) : Prop :=
  0 ≤ id.mId ∧ id.mId ≤ kLastBuiltInId

instance (id : TSymbolUniqueId) : Decidable (isBuiltInId id) := by
  unfold isBuiltInId; infer_instance

/-- Embedding of the TSymbolTable state relevant to id minting: the unique id
counter owned by the table. -/
structure TSymbolTable where
  mUniqueIdCounter : Int
deriving DecidableEq, Repr

/-- Modelled from the spec: a fresh symbol table for one compile unit starts
its dynamic counter just past the static built-in range, so the two numbering
spaces are disjoint (the TSymbolTable constructor is not part of the visible
sources). -/
def TSymbolTable.fresh : TSymbolTable := ⟨kLastBuiltInId + 1⟩

/-- Modelled from the spec: the private TSymbolUniqueId(TSymbolTable *)
constructor, reachable only through the owning table, returns the next unused
value in the dynamic range and advances the counter (the constructor body is
not part of the visible sources). -/
def TSymbolTable.nextUniqueId (st : TSymbolTable) : TSymbolUniqueId × TSymbolTable :=
  (⟨st.mUniqueIdCounter⟩, ⟨st.mUniqueIdCounter + 1⟩)

/-- Mint n ids in sequence from a table, returning them in minting order
together with the final table state. -/
def TSymbolTable.mintMany (st : TSymbolTable) : Nat → List TSymbolUniqueId × TSymbolTable
  | 0 => ([], st)
  | n + 1 =>
    let (id, st1) := st.nextUniqueId
    let (ids, st2) := st1.mintMany n
    (id :: ids, st2)

end sh

namespace angle

/-- Byte-addressed memory, modelling the process address space seen by the
arena allocator and its clients. -/
def Mem : Type := Nat → Nat

/-- Write a list of bytes into memory starting at addr (the embedding of a
memset or a marker store in the unit test). -/
def writeBytes (mem : Mem) (addr : Nat) (bytes : List Nat) : Mem :=
  fun x => if addr ≤ x ∧ x < addr + bytes.length then bytes.getD (x - addr) 0 else mem x

/-- Read n bytes of memory starting at addr. -/
def readBytes (mem : Mem) (addr n : Nat) : List Nat :=
  (List.range n).map fun i => mem (addr + i)

/-- Round x up to the next multiple of a (the alignment padding computation of
the bump allocator). -/
def roundUp (x a : Nat) : Nat :=
  if a = 0 then x else ((x + a - 1) / a) * a

/-- One memory page claimed from the system allocator: its base address and
its size in bytes. -/
structure PoolPage where
  pageBase : Nat
  pageSize : Nat
deriving DecidableEq, Repr

/-- Modelled from the spec: the PoolAllocator arena state (PoolAlloc.h is not
part of the visible sources; only its unit test is). The arena keeps a fixed
power-of-two alignment chosen at construction, a default page growth size, the
list of pages claimed so far, the current page and a cursor; allocation bumps
the cursor. The system allocator is modelled as a high-water mark (the next
fresh address), threaded through allocate, so that pages of distinct arenas
never overlap. -/
structure PoolAllocator where
  mAlignment : Nat
  mPageSize : Nat
  mPages : List PoolPage
  mCurrentPageBase : Nat
  mCurrentPageEnd : Nat
  mCursor : Nat
deriving DecidableEq, Repr

/-- Modelled from the spec: the fixed default page size of the arena. -/
def kDefaultPageSize : Nat := 8192

/-- Modelled from the spec: the default allocation alignment of the arena. -/
def kDefaultAlignment : Nat := 16

/-- Modelled from the spec: the PoolAllocator(growthIncrement, alignment)
constructor; the arena starts with no current page. -/
def PoolAllocator.create (pageSize alignment : Nat) : PoolAllocator :=
  ⟨alignment, pageSize, [], 0, 0, 0⟩

/-- Modelled from the spec: the default PoolAllocator constructor used by the
unit test. -/
def PoolAllocator.createDefault : PoolAllocator :=
  PoolAllocator.create kDefaultPageSize kDefaultAlignment

/-- Modelled from the spec: allocate(size) bumps the cursor, first padding it
up to the arena alignment; if the padded request does not fit in the current
page, a new page sized to the larger of the default page size and the request
(plus alignment slack) is claimed from the system high-water mark sys and the
cursor continues there. Returns the address, the new arena state and the new
system high-water mark. -/
def PoolAllocator.allocate (pa : PoolAllocator) (sys : Nat) (size : Nat) :
    Nat × PoolAllocator × Nat :=
  if roundUp pa.mCursor pa.mAlignment + size ≤ pa.mCurrentPageEnd then
    (roundUp pa.mCursor pa.mAlignment,
      { pa with mCursor := roundUp pa.mCursor pa.mAlignment + size }, sys)
  else
    (roundUp sys pa.mAlignment,
      { pa with
        mPages := ⟨sys, max pa.mPageSize (size + pa.mAlignment)⟩ :: pa.mPages
        mCurrentPageBase := sys
        mCurrentPageEnd := sys + max pa.mPageSize (size + pa.mAlignment)
        mCursor := roundUp sys pa.mAlignment + size },
      sys + max pa.mPageSize (size + pa.mAlignment))

/-- Modelled from the spec: destroying an arena releases every page at once;
it performs no writes to user bytes, so the memory image is unchanged. -/
def PoolAllocator.destroy (_ : PoolAllocator) (mem : Mem) : Mem := mem

/-- Run a sequence of allocation requests against one arena, collecting the
returned (address, size) pairs. -/
def runAllocs (pa : PoolAllocator) (sys : Nat) :
    List Nat → List (Nat × Nat) × PoolAllocator × Nat
  | [] => ([], pa, sys)
  | s :: rest =>
    let r := pa.allocate sys s
    let rr := runAllocs r.2.1 r.2.2 rest
    ((r.1, s) :: rr.1, rr.2)

/-- Modelled from the spec: the fixed byte pattern used to fill guard blocks
in guard-block mode. -/
def kGuardBlockPattern : Nat := 0xfb

/-- Modelled from the spec: the number of sentinel bytes reserved immediately
before and after each allocation in guard-block mode. -/
def kGuardBlockSize : Nat := 16

/-- Modelled from the spec: guard-block mode wraps the arena and remembers
every granted (address, requested size) pair so the flanking sentinel bytes
can be verified later. -/
structure GuardedPoolAllocator where
  mInner : PoolAllocator
  mAllocs : List (Nat × Nat)

/-- Fresh guard-block arena. -/
def GuardedPoolAllocator.create (pageSize alignment : Nat) : GuardedPoolAllocator :=
  ⟨PoolAllocator.create pageSize alignment, []⟩

/-- Check that both guard blocks flanking one allocation still hold the fixed
pattern. -/
def guardsIntact (mem : Mem) (a : Nat × Nat) : Bool :=
  ((List.range kGuardBlockSize).all fun i =>
    mem (a.1 - kGuardBlockSize + i) == kGuardBlockPattern) &&
  ((List.range kGuardBlockSize).all fun i =>
    mem (a.1 + a.2 + i) == kGuardBlockPattern)

/-- Modelled from the spec: the integrity check verifies the guard blocks of
every allocation granted so far. -/
def GuardedPoolAllocator.checkIntegrity (g : GuardedPoolAllocator) (mem : Mem) : Bool :=
  g.mAllocs.all (guardsIntact mem)

/-- Fatal error taxonomy of the arena (spec section 7). -/
inductive PoolError where
  | corruptionDetected
deriving DecidableEq, Repr

/-- Fill the two guard blocks flanking a fresh allocation with the fixed
pattern. -/
def initGuards (mem : Mem) (addr size : Nat) : Mem :=
  writeBytes
    (writeBytes mem (addr - kGuardBlockSize)
      (List.replicate kGuardBlockSize kGuardBlockPattern))
    (addr + size) (List.replicate kGuardBlockSize kGuardBlockPattern)

/-- Modelled from the spec: guard-block allocation verifies every existing
guard block before granting the request (a mismatch is fatal corruption and
nothing is repaired), then reserves sentinel bytes flanking the new
allocation and initializes them with the fixed pattern. -/
def GuardedPoolAllocator.allocate (g : GuardedPoolAllocator) (sys : Nat) (mem : Mem)
    (size : Nat) : Except PoolError (Nat × GuardedPoolAllocator × Nat × Mem) :=
  if g.checkIntegrity mem then
    let r := g.mInner.allocate sys (size + 2 * kGuardBlockSize)
    let addr := r.1 + kGuardBlockSize
    .ok (addr, ⟨r.2.1, (addr, size) :: g.mAllocs⟩, r.2.2, initGuards mem addr size)
  else
    .error .corruptionDetected

/-- Modelled from the spec: teardown of a guard-block arena verifies every
guard block one final time; a mismatch is fatal corruption. -/
def GuardedPoolAllocator.destroy (g : GuardedPoolAllocator) (mem : Mem) :
    Except PoolError Unit :=
  if g.checkIntegrity mem then .ok () else .error .corruptionDetected

/-- Invariant tying one arena to the system high-water mark: the alignment is
positive, the cursor is inside the current page, and the current page lies
below the high-water mark. -/
def Inv (pa : PoolAllocator) (sys : Nat) : Prop :=
  1 ≤ pa.mAlignment ∧ pa.mCursor ≤ pa.mCurrentPageEnd ∧ pa.mCurrentPageEnd ≤ sys

/-- All-zero memory image, used for concrete instances. -/
def memZero : Mem := fun _ => 0

end angle

namespace sh

/-- Modelled from the spec: the operand type representation keyed on by the
capability bridge deduplication sets (the translator TType with structural
equality; the full TType is not part of the visible sources). -/
inductive TType where
  | int
  | uint
  | float
  | bool
deriving DecidableEq, Repr, Fintype

/-- Embedding of sh::WGSLWrapperFunction from WGSLProgramPrelude.h: the two
text fragments spliced around the translated operand expression (the source
fields are named prefix and suffix). -/
structure WGSLWrapperFunction where
  prefixText : String
  suffixText : String
deriving DecidableEq, Repr

/-- The four operation kinds of the capability bridge, in the order their
deduplication sets are declared in WGSLProgramPrelude.h. -/
inductive UnaryOpKind where
  | preIncrement
  | preDecrement
  | postIncrement
  | postDecrement
deriving DecidableEq, Repr, Fintype

/-- The fixed declared order in which outputPrelude visits the operation
kinds (field order of WGSLProgramPrelude). -/
def opKindList : List UnaryOpKind :=
  [.preIncrement, .preDecrement, .postIncrement, .postDecrement]

/-- Name of an operand type in generated text. -/
def TType.typeName : TType → String
  | .int => "int"
  | .uint => "uint"
  | .float => "float"
  | .bool => "bool"

/-- Name of an operation kind in generated text. -/
def UnaryOpKind.kindName : UnaryOpKind → String
  | .preIncrement => "preIncrement"
  | .preDecrement => "preDecrement"
  | .postIncrement => "postIncrement"
  | .postDecrement => "postDecrement"

/-- Modelled from the spec: the name of the generated wrapper function for
one (operation kind, operand type) pair. -/
def wrapperFunctionName (k : UnaryOpKind) (t : TType) : String :=
  k.kindName ++ "_" ++ t.typeName

/-- Modelled from the spec: the fragment pair returned to the caller, to be
spliced around the translated operand expression at the call site. -/
def wrapperFragments (k : UnaryOpKind) (t : TType) : WGSLWrapperFunction :=
  ⟨wrapperFunctionName k t ++ "(&(", "))"⟩

/-- Modelled from the spec: the full generated function definition text for
one (operation kind, operand type) pair, referencing its operand type. -/
def wrapperDefinition (k : UnaryOpKind) (t : TType) : String :=
  "fn " ++ wrapperFunctionName k t ++ "(p : ptr<function, " ++ t.typeName ++
    ">) -> " ++ t.typeName ++ " \x7b ... \x7d"

/-- Embedding of sh::WGSLProgramPrelude: one deduplication set per operation
kind. Modelled from the spec: each set is kept in insertion order (the
WGSLProgramPrelude member function bodies are not part of the visible
sources). -/
structure WGSLProgramPrelude where
  mPreIncrementedTypes : List TType
  mPreDecrementedTypes : List TType
  mPostIncrementedTypes : List TType
  mPostDecrementedTypes : List TType
deriving DecidableEq, Repr

/-- A fresh prelude accumulator with all four sets empty. -/
def WGSLProgramPrelude.empty : WGSLProgramPrelude := ⟨[], [], [], []⟩

/-- Insert into a deduplication set kept as an insertion-ordered list:
inserting an element already present has no effect. -/
def insertTypeDedup (l : List TType) (t : TType) : List TType :=
  if t ∈ l then l else l ++ [t]

/-- Embedding of WGSLProgramPrelude::preIncrement: registers the operand type
in the pre-increment set and returns the call-site fragment pair. -/
def WGSLProgramPrelude.preIncrement (p : WGSLProgramPrelude) (t : TType) :
    WGSLWrapperFunction × WGSLProgramPrelude :=
  (wrapperFragments .preIncrement t,
    { p with mPreIncrementedTypes := insertTypeDedup p.mPreIncrementedTypes t })

/-- Embedding of WGSLProgramPrelude::preDecrement. -/
def WGSLProgramPrelude.preDecrement (p : WGSLProgramPrelude) (t : TType) :
    WGSLWrapperFunction × WGSLProgramPrelude :=
  (wrapperFragments .preDecrement t,
    { p with mPreDecrementedTypes := insertTypeDedup p.mPreDecrementedTypes t })

/-- Embedding of WGSLProgramPrelude::postIncrement. -/
def WGSLProgramPrelude.postIncrement (p : WGSLProgramPrelude) (t : TType) :
    WGSLWrapperFunction × WGSLProgramPrelude :=
  (wrapperFragments .postIncrement t,
    { p with mPostIncrementedTypes := insertTypeDedup p.mPostIncrementedTypes t })

/-- Embedding of WGSLProgramPrelude::postDecrement. -/
def WGSLProgramPrelude.postDecrement (p : WGSLProgramPrelude) (t : TType) :
    WGSLWrapperFunction × WGSLProgramPrelude :=
  (wrapperFragments .postDecrement t,
    { p with mPostDecrementedTypes := insertTypeDedup p.mPostDecrementedTypes t })

/-- Dispatch a wrapper request to the member function for its operation
kind. -/
def WGSLProgramPrelude.request (p : WGSLProgramPrelude) (k : UnaryOpKind) (t : TType) :
    WGSLWrapperFunction × WGSLProgramPrelude :=
  match k with
  | .preIncrement => p.preIncrement t
  | .preDecrement => p.preDecrement t
  | .postIncrement => p.postIncrement t
  | .postDecrement => p.postDecrement t

/-- The deduplication set owned by one operation kind. -/
def WGSLProgramPrelude.typesFor (p : WGSLProgramPrelude) : UnaryOpKind → List TType
  | .preIncrement => p.mPreIncrementedTypes
  | .preDecrement => p.mPreDecrementedTypes
  | .postIncrement => p.mPostIncrementedTypes
  | .postDecrement => p.mPostDecrementedTypes

/-- Embedding of WGSLProgramPrelude::outputPrelude as the list of generated
function definitions it writes to the sink, visiting the operation kinds in
their fixed declared order and each deduplication set in insertion order. -/
def WGSLProgramPrelude.preludeFunctions (p : WGSLProgramPrelude) : List String :=
  (opKindList.map fun k => (p.typesFor k).map (wrapperDefinition k)).flatten

/-- The text written to the sink by outputPrelude: the generated function
definitions concatenated in order. -/
def WGSLProgramPrelude.outputPrelude (p : WGSLProgramPrelude) : String :=
  String.join p.preludeFunctions

/-- Run a sequence of wrapper registrations starting from a given
accumulator. -/
def runRequestsFrom (p : WGSLProgramPrelude) (reqs : List (UnaryOpKind × TType)) :
    WGSLProgramPrelude :=
  reqs.foldl (fun q r => (q.request r.1 r.2).2) p

/-- Run a sequence of wrapper registrations from a fresh accumulator. -/
def runRequests (reqs : List (UnaryOpKind × TType)) : WGSLProgramPrelude :=
  runRequestsFrom WGSLProgramPrelude.empty reqs

/-- Specification-side order: the operand types requested for one operation
kind, keeping only the first occurrence of each type. -/
def firstRegistered : List TType → List TType
  | [] => []
  | t :: ts => t :: (firstRegistered ts).filter (fun u => u ≠ t)

/-- The operand types requested for one operation kind, in request order and
with duplicates kept. -/
def requestedTypes (reqs : List (UnaryOpKind × TType)) (k : UnaryOpKind) : List TType :=
  reqs.filterMap fun r => if r.1 = k then some r.2 else none

end sh

namespace sh

theorem mintMany_fst (st : TSymbolTable) (n : Nat) :
    (st.mintMany n).1 =
      (List.range n).map (fun i => ⟨st.mUniqueIdCounter + i⟩) := by
  induction n generalizing st with
  | zero => rfl
  | succ n ih =>
    rw [List.range_succ_eq_map]
    simp only [TSymbolTable.mintMany, TSymbolTable.nextUniqueId, ih,
      List.map_cons, List.map_map]
    congr 1
    · simp
    · apply List.map_congr_left
      intro i _
      simp only [Function.comp, TSymbolUniqueId.mk.injEq]
      push_cast
      ring

theorem mintMany_snd (st : TSymbolTable) (n : Nat) :
    (st.mintMany n).2 = ⟨st.mUniqueIdCounter + n⟩ := by
  induction n generalizing st with
  | zero => simp [TSymbolTable.mintMany]
  | succ n ih =>
    simp only [TSymbolTable.mintMany, TSymbolTable.nextUniqueId, ih]
    congr 1
    push_cast
    ring

/-- C7: within one compile unit all minted symbol ids are pairwise distinct;
the invalid sentinel (value -1) never equals any minted id nor any built-in
id; and no built-in id lies inside the dynamic range from which ids are
minted (every built-in id is below the initial dynamic counter). -/
theorem c7_symbol_id_spaces (n : Nat) :
    ((TSymbolTable.fresh.mintMany n).1.Pairwise (fun a b => a ≠ b))
    ∧ (∀ id ∈ (TSymbolTable.fresh.mintMany n).1, TSymbolUniqueId.kInvalid ≠ id)
    ∧ (∀ b : TSymbolUniqueId, isBuiltInId b → TSymbolUniqueId.kInvalid ≠ b)
    ∧ (∀ b : TSymbolUniqueId, isBuiltInId b →
        b.mId < TSymbolTable.fresh.mUniqueIdCounter)
    ∧ (∀ b : TSymbolUniqueId, isBuiltInId b →
        ∀ id ∈ (TSymbolTable.fresh.mintMany n).1, b ≠ id) := by
  have hfst := mintMany_fst TSymbolTable.fresh n
  have hinj : Function.Injective
      (fun i : Nat => (⟨TSymbolTable.fresh.mUniqueIdCounter + i⟩ : TSymbolUniqueId)) := by
    intro i j h
    simp only [TSymbolUniqueId.mk.injEq] at h
    omega
  refine ⟨?_, ?_, ?_, ?_, ?_⟩
  · show ((TSymbolTable.fresh.mintMany n).1).Nodup
    rw [hfst]
    exact (List.nodup_range n).map hinj
  · intro id hid
    rw [hfst] at hid
    simp only [List.mem_map, List.mem_range] at hid
    obtain ⟨i, _, rfl⟩ := hid
    simp only [TSymbolUniqueId.kInvalid, TSymbolTable.fresh, kLastBuiltInId, ne_eq,
      TSymbolUniqueId.mk.injEq]
    omega
  · rintro b ⟨hb0, _⟩ h
    rw [← h] at hb0
    simp only [TSymbolUniqueId.kInvalid] at hb0
    omega
  · rintro b ⟨_, hb1⟩
    simp only [TSymbolTable.fresh, kLastBuiltInId] at *
    omega
  · rintro b ⟨_, hb1⟩ id hid
    rw [hfst] at hid
    simp only [List.mem_map, List.mem_range] at hid
    obtain ⟨i, _, rfl⟩ := hid
    simp only [kLastBuiltInId] at hb1
    intro heq
    have hbid : b.mId = TSymbolTable.fresh.mUniqueIdCounter + i :=
      congrArg TSymbolUniqueId.mId heq
    simp only [TSymbolTable.fresh, kLastBuiltInId] at hbid
    omega

/-- Closed instance of c7_symbol_id_spaces at five minted ids. -/
theorem c7_symbol_id_spaces_witness :
    ((TSymbolTable.fresh.mintMany 5).1.Pairwise (fun a b => a ≠ b))
    ∧ (∀ id ∈ (TSymbolTable.fresh.mintMany 5).1, TSymbolUniqueId.kInvalid ≠ id)
    ∧ (∀ b : TSymbolUniqueId, isBuiltInId b → TSymbolUniqueId.kInvalid ≠ b)
    ∧ (∀ b : TSymbolUniqueId, isBuiltInId b →
        b.mId < TSymbolTable.fresh.mUniqueIdCounter)
    ∧ (∀ b : TSymbolUniqueId, isBuiltInId b →
        ∀ id ∈ (TSymbolTable.fresh.mintMany 5).1, b ≠ id) :=
  c7_symbol_id_spaces 5

/-- C8: minting through the symbol table is sequential: one mint returns the
current counter value and advances the counter by one, and three mints from a
fresh table yield consecutive strictly increasing values starting at the
initial counter value. -/
theorem c8_minting_sequential :
    (∀ st : TSymbolTable,
      st.nextUniqueId.1.get = st.mUniqueIdCounter ∧
      st.nextUniqueId.2.mUniqueIdCounter = st.mUniqueIdCounter + 1)
    ∧ (TSymbolTable.fresh.mintMany 3).1.map TSymbolUniqueId.get =
        [TSymbolTable.fresh.mUniqueIdCounter, TSymbolTable.fresh.mUniqueIdCounter + 1,
          TSymbolTable.fresh.mUniqueIdCounter + 2]
    ∧ List.Chain' (· < ·) ((TSymbolTable.fresh.mintMany 3).1.map TSymbolUniqueId.get) := by
  refine ⟨fun st => ⟨rfl, rfl⟩, by decide, ?_⟩
  have h3 : (TSymbolTable.fresh.mintMany 3).1.map TSymbolUniqueId.get =
      [4000, 4001, 4002] := by decide
  rw [h3]
  norm_num [List.chain'_cons, List.chain'_singleton]

/-- C9: equality, inequality, hashing and copying of TSymbolUniqueId are
defined solely by the stored integer value. -/
theorem c9_value_semantics (a b : TSymbolUniqueId) (w : Nat) :
    (TSymbolUniqueId.beq a b = true ↔ a.get = b.get)
    ∧ TSymbolUniqueId.bne a b = !TSymbolUniqueId.beq a b
    ∧ (TSymbolUniqueId.beq a b = true →
        hashSymbolUniqueId w a = hashSymbolUniqueId w b)
    ∧ TSymbolUniqueId.beq a.copy a = true
    ∧ a.copy.get = a.get
    ∧ a.copy = a := by
  have hbeq : TSymbolUniqueId.beq a b = true ↔ a.get = b.get := by
    simp [TSymbolUniqueId.beq, TSymbolUniqueId.get]
  refine ⟨hbeq, rfl, ?_, ?_, rfl, rfl⟩
  · intro h
    unfold hashSymbolUniqueId
    rw [hbeq.mp h]
  · simp [TSymbolUniqueId.copy, TSymbolUniqueId.beq]

/-- Closed instance of c9_value_semantics with two equal ids at word width
64. -/
theorem c9_value_semantics_witness :
    (TSymbolUniqueId.beq ⟨7⟩ ⟨7⟩ = true ↔ TSymbolUniqueId.get ⟨7⟩ = TSymbolUniqueId.get ⟨7⟩)
    ∧ TSymbolUniqueId.bne ⟨7⟩ ⟨7⟩ = !TSymbolUniqueId.beq ⟨7⟩ ⟨7⟩
    ∧ (TSymbolUniqueId.beq ⟨7⟩ ⟨7⟩ = true →
        hashSymbolUniqueId 64 ⟨7⟩ = hashSymbolUniqueId 64 ⟨7⟩)
    ∧ TSymbolUniqueId.beq (TSymbolUniqueId.copy ⟨7⟩) ⟨7⟩ = true
    ∧ (TSymbolUniqueId.copy ⟨7⟩).get = TSymbolUniqueId.get ⟨7⟩
    ∧ TSymbolUniqueId.copy ⟨7⟩ = ⟨7⟩ :=
  c9_value_semantics ⟨7⟩ ⟨7⟩ 64

/-- C10: the standard hash of a TSymbolUniqueId is its signed value reduced
modulo 2 to the word width: it is below 2 to the w and congruent to the
stored value, and the invalid sentinel of value -1 hashes to the maximum
size_t value. -/
theorem c10_hash_modular_wrap (w : Nat) (hw : 1 ≤ w) :
    hashSymbolUniqueId w TSymbolUniqueId.kInvalid = 2 ^ w - 1
    ∧ ∀ id : TSymbolUniqueId,
        hashSymbolUniqueId w id < 2 ^ w ∧
        ((hashSymbolUniqueId w id : Int) - id.get) % (2 : Int) ^ w = 0 := by
  have hcast : (((2 : Nat) ^ w : Nat) : Int) = (2 : Int) ^ w := by push_cast; ring
  have hm : (2 : Int) ≤ (2 : Int) ^ w := by
    calc (2 : Int) = 2 ^ 1 := (pow_one 2).symm
    _ ≤ 2 ^ w := pow_le_pow_right₀ (by norm_num) hw
  constructor
  · unfold hashSymbolUniqueId TSymbolUniqueId.kInvalid TSymbolUniqueId.get
    have h1 : (-1 : Int) % (2 : Int) ^ w = (2 : Int) ^ w - 1 := by
      have h2 : (-1 : Int) = ((2 : Int) ^ w - 1) + (2 : Int) ^ w * (-1) := by ring
      rw [h2, Int.add_mul_emod_self_left, Int.emod_eq_of_lt (by omega) (by omega)]
    rw [h1]
    omega
  · intro id
    have h0 : 0 ≤ id.get % (2 : Int) ^ w := Int.emod_nonneg _ (by omega)
    have h2 : id.get % (2 : Int) ^ w < (2 : Int) ^ w := Int.emod_lt_of_pos _ (by omega)
    constructor
    · unfold hashSymbolUniqueId
      omega
    · unfold hashSymbolUniqueId
      rw [Int.toNat_of_nonneg h0, Int.sub_emod, Int.emod_emod_of_dvd _ dvd_rfl,
        sub_self, Int.zero_emod]

/-- Closed instance of c10_hash_modular_wrap at a 64-bit word. -/
theorem c10_hash_modular_wrap_witness :
    hashSymbolUniqueId 64 TSymbolUniqueId.kInvalid = 2 ^ 64 - 1
    ∧ ∀ id : TSymbolUniqueId,
        hashSymbolUniqueId 64 id < 2 ^ 64 ∧
        ((hashSymbolUniqueId 64 id : Int) - id.get) % (2 : Int) ^ 64 = 0 :=
  c10_hash_modular_wrap 64 (by decide)

end sh

namespace angle

theorem le_roundUp (x a : Nat) (h : 1 ≤ a) : x ≤ roundUp x a := by
  unfold roundUp
  rw [if_neg (by omega)]
  have hd := Nat.div_add_mod (x + a - 1) a
  have hlt : (x + a - 1) % a < a := Nat.mod_lt _ (by omega)
  rw [Nat.mul_comm]
  omega

theorem roundUp_le (x a : Nat) (h : 1 ≤ a) : roundUp x a ≤ x + a - 1 := by
  unfold roundUp
  rw [if_neg (by omega)]
  have hd := Nat.div_add_mod (x + a - 1) a
  rw [Nat.mul_comm]
  omega

theorem roundUp_mod (x a : Nat) (h : 1 ≤ a) : roundUp x a % a = 0 := by
  unfold roundUp
  rw [if_neg (by omega)]
  exact Nat.mul_mod_left _ _

theorem allocate_spec (pa : PoolAllocator) (sys size : Nat) (h : Inv pa sys) :
    Inv (pa.allocate sys size).2.1 (pa.allocate sys size).2.2
    ∧ pa.mCursor ≤ (pa.allocate sys size).1
    ∧ (pa.allocate sys size).2.1.mCursor = (pa.allocate sys size).1 + size
    ∧ (pa.allocate sys size).1 + size ≤ (pa.allocate sys size).2.2
    ∧ sys ≤ (pa.allocate sys size).2.2
    ∧ (pa.allocate sys size).2.1.mAlignment = pa.mAlignment
    ∧ (pa.allocate sys size).1 % pa.mAlignment = 0 := by
  obtain ⟨ha, hc, he⟩ := h
  have h1 := le_roundUp pa.mCursor pa.mAlignment ha
  have h2 := roundUp_mod pa.mCursor pa.mAlignment ha
  have h3 := le_roundUp sys pa.mAlignment ha
  have h4 := roundUp_le sys pa.mAlignment ha
  have h5 := roundUp_mod sys pa.mAlignment ha
  have hmax : size + pa.mAlignment ≤ max pa.mPageSize (size + pa.mAlignment) :=
    le_max_right _ _
  unfold PoolAllocator.allocate
  by_cases hfit : roundUp pa.mCursor pa.mAlignment + size ≤ pa.mCurrentPageEnd
  · rw [if_pos hfit]
    dsimp only [Inv]
    exact ⟨⟨ha, hfit, he⟩, h1, rfl, by omega, le_refl _, rfl, h2⟩
  · rw [if_neg hfit]
    dsimp only [Inv]
    exact ⟨⟨ha, by omega, by omega⟩, by omega, rfl, by omega, by omega, rfl, h5⟩

theorem runAllocs_spec (sizes : List Nat) : ∀ (pa : PoolAllocator) (sys : Nat), Inv pa sys →
    Inv (runAllocs pa sys sizes).2.1 (runAllocs pa sys sizes).2.2
    ∧ sys ≤ (runAllocs pa sys sizes).2.2
    ∧ (runAllocs pa sys sizes).2.1.mAlignment = pa.mAlignment
    ∧ (∀ r ∈ (runAllocs pa sys sizes).1,
        pa.mCursor ≤ r.1 ∧ r.1 % pa.mAlignment = 0 ∧ r.1 + r.2 ≤ (runAllocs pa sys sizes).2.2)
    ∧ (runAllocs pa sys sizes).1.Pairwise (fun r1 r2 => r1.1 + r1.2 ≤ r2.1) := by
  induction sizes with
  | nil =>
    intro pa sys h
    exact ⟨h, le_refl _, rfl, by simp [runAllocs], by simp [runAllocs]⟩
  | cons s rest ih =>
    intro pa sys h
    obtain ⟨hinv1, hcur, hcur1, hfit1, hsys1, halign1, hmod1⟩ := allocate_spec pa sys s h
    obtain ⟨hinv2, hsys2, halign2, hall2, hpw2⟩ :=
      ih (pa.allocate sys s).2.1 (pa.allocate sys s).2.2 hinv1
    have hruncons : runAllocs pa sys (s :: rest) =
        (((pa.allocate sys s).1, s) ::
            (runAllocs (pa.allocate sys s).2.1 (pa.allocate sys s).2.2 rest).1,
          (runAllocs (pa.allocate sys s).2.1 (pa.allocate sys s).2.2 rest).2) := rfl
    rw [hruncons]
    dsimp only
    refine ⟨hinv2, by omega, by rw [halign2, halign1], ?_, ?_⟩
    · intro r hr
      rcases List.mem_cons.mp hr with hr | hr
      · subst hr
        exact ⟨hcur, hmod1, by omega⟩
      · obtain ⟨hr1, hr2, hr3⟩ := hall2 r hr
        rw [halign1] at hr2
        exact ⟨by omega, hr2, hr3⟩
    · refine List.Pairwise.cons ?_ hpw2
      intro r hr
      obtain ⟨hr1, _, _⟩ := hall2 r hr
      omega

theorem writeBytes_outside (mem : Mem) (addr : Nat) (bytes : List Nat) (x : Nat)
    (h : x < addr ∨ addr + bytes.length ≤ x) : writeBytes mem addr bytes x = mem x := by
  unfold writeBytes
  rw [if_neg (by omega)]

theorem writeBytes_inside (mem : Mem) (addr : Nat) (bytes : List Nat) (x : Nat)
    (h1 : addr ≤ x) (h2 : x < addr + bytes.length) :
    writeBytes mem addr bytes x = bytes.getD (x - addr) 0 := by
  unfold writeBytes
  rw [if_pos ⟨h1, h2⟩]

/-- C3: every address returned by an arena constructed with an alignment from
the set of powers of two 1 to 128 is a multiple of that alignment, for any
sequence of positive allocation sizes. -/
theorem c3_allocation_alignment (pageSize alignment sys0 : Nat) (sizes : List Nat)
    (halign : alignment ∈ [1, 2, 4, 8, 16, 32, 64, 128])
    (hsizes : ∀ s ∈ sizes, 1 ≤ s) :
    ∀ r ∈ (runAllocs (PoolAllocator.create pageSize alignment) sys0 sizes).1,
      r.1 % alignment = 0 := by
  have ha : 1 ≤ alignment := by
    simp only [List.mem_cons, List.not_mem_nil, or_false] at halign
    rcases halign with h | h | h | h | h | h | h | h <;> omega
  have hinv : Inv (PoolAllocator.create pageSize alignment) sys0 :=
    ⟨ha, Nat.le_refl _, Nat.zero_le _⟩
  intro r hr
  exact ((runAllocs_spec sizes _ _ hinv).2.2.2.1 r hr).2.1

/-- Closed instance of c3_allocation_alignment: a 4096-byte-page arena with
alignment 8 over four allocation sizes; the second allocation lands at
address 8, a multiple of 8. -/
theorem c3_allocation_alignment_witness :
    ((8, 100) : Nat × Nat) ∈ (runAllocs (PoolAllocator.create 4096 8) 0 [5, 100, 4000, 9000]).1
    ∧ ((8, 100) : Nat × Nat).1 % 8 = 0 :=
  ⟨by decide,
    c3_allocation_alignment 4096 8 0 [5, 100, 4000, 9000] (by decide) (by decide)
      (8, 100) (by decide)⟩

/-- C4: for every arena (any page size, any power-of-two alignment) and every
finite sequence of allocations from it, the returned byte ranges are pairwise
disjoint, and writing the full requested size of one allocation never
modifies bytes of another. -/
theorem c4_allocations_disjoint (pageSize alignment sys0 : Nat) (sizes : List Nat)
    (halign : ∃ k : Nat, alignment = 2 ^ k) :
    (runAllocs (PoolAllocator.create pageSize alignment) sys0 sizes).1.Pairwise
      (fun r1 r2 =>
        (∀ x : Nat, ¬(r1.1 ≤ x ∧ x < r1.1 + r1.2 ∧ r2.1 ≤ x ∧ x < r2.1 + r2.2))
        ∧ (∀ (mem : Mem) (bytes : List Nat), bytes.length = r1.2 →
            ∀ x : Nat, r2.1 ≤ x → x < r2.1 + r2.2 → writeBytes mem r1.1 bytes x = mem x)
        ∧ (∀ (mem : Mem) (bytes : List Nat), bytes.length = r2.2 →
            ∀ x : Nat, r1.1 ≤ x → x < r1.1 + r1.2 → writeBytes mem r2.1 bytes x = mem x)) := by
  obtain ⟨k, rfl⟩ := halign
  have ha : 1 ≤ 2 ^ k := Nat.one_le_two_pow
  have hinv : Inv (PoolAllocator.create pageSize (2 ^ k)) sys0 :=
    ⟨ha, Nat.le_refl _, Nat.zero_le _⟩
  refine ((runAllocs_spec sizes _ _ hinv).2.2.2.2).imp ?_
  intro r1 r2 hle
  refine ⟨fun x => by omega, ?_, ?_⟩
  · intro mem bytes hlen x hx1 hx2
    exact writeBytes_outside mem r1.1 bytes x (by omega)
  · intro mem bytes hlen x hx1 hx2
    exact writeBytes_outside mem r2.1 bytes x (by omega)

/-- Closed instance of c4_allocations_disjoint: the default arena shape over
three allocations, one spanning a new page. -/
theorem c4_allocations_disjoint_witness :
    (runAllocs (PoolAllocator.create 8192 16) 0 [1024, 2048, 9000]).1.Pairwise
      (fun r1 r2 =>
        (∀ x : Nat, ¬(r1.1 ≤ x ∧ x < r1.1 + r1.2 ∧ r2.1 ≤ x ∧ x < r2.1 + r2.2))
        ∧ (∀ (mem : Mem) (bytes : List Nat), bytes.length = r1.2 →
            ∀ x : Nat, r2.1 ≤ x → x < r2.1 + r2.2 → writeBytes mem r1.1 bytes x = mem x)
        ∧ (∀ (mem : Mem) (bytes : List Nat), bytes.length = r2.2 →
            ∀ x : Nat, r1.1 ≤ x → x < r1.1 + r1.2 → writeBytes mem r2.1 bytes x = mem x)) :=
  c4_allocations_disjoint 8192 16 0 [1024, 2048, 9000] ⟨4, rfl⟩

end angle

namespace angle

theorem marker_read_back (marker fill1 fill2 : List Nat) (mem0 : Mem)
    (hm : marker.length = 4) :
    readBytes (writeBytes (writeBytes (writeBytes mem0 0 marker) 8192 fill1) 16384 fill2) 0 4
      = marker := by
  match marker, hm with
  | [b0, b1, b2, b3], _ =>
    have key : ∀ x : Nat, x < 4 →
        writeBytes (writeBytes (writeBytes mem0 0 [b0, b1, b2, b3]) 8192 fill1) 16384 fill2 x
          = [b0, b1, b2, b3].getD x 0 := by
      intro x hx
      rw [writeBytes_outside _ _ _ _ (by omega), writeBytes_outside _ _ _ _ (by omega),
        writeBytes_inside _ _ _ _ (by omega) (by simpa using hx)]
      simp
    have hr : List.range 4 = [0, 1, 2, 3] := rfl
    simp only [readBytes, hr, List.map_cons, List.map_nil, Nat.zero_add]
    rw [key 0 (by omega), key 1 (by omega), key 2 (by omega), key 3 (by omega)]
    rfl

/-- C5: scenario A. Allocate 1024 bytes from a default arena and write a
4-byte marker at its start; allocate 1024 and then 10240 bytes from a second
independent arena, write arbitrary data through both of those allocations,
and destroy the second arena: reading back 4 bytes at the first allocation
still yields the marker. -/
theorem c5_cross_arena_frame (marker fill1 fill2 : List Nat) (mem0 : Mem)
    (hm : marker.length = 4) (hf1 : fill1.length = 1024) (hf2 : fill2.length = 10240) :
    (let r1 := PoolAllocator.createDefault.allocate 0 1024
     let r2 := PoolAllocator.createDefault.allocate r1.2.2 1024
     let r3 := r2.2.1.allocate r2.2.2 10240
     let mem1 := writeBytes mem0 r1.1 marker
     let mem2 := writeBytes mem1 r2.1 fill1
     let mem3 := writeBytes mem2 r3.1 fill2
     let mem4 := r3.2.1.destroy mem3
     readBytes mem4 r1.1 4 = marker) := by
  show readBytes
      (writeBytes (writeBytes (writeBytes mem0 0 marker) 8192 fill1) 16384 fill2) 0 4 = marker
  exact marker_read_back marker fill1 fill2 mem0 hm

/-- Closed instance of c5_cross_arena_frame with the marker bytes of the unit
test value 0xbaadbeef and 0xb8 fill. -/
theorem c5_cross_arena_frame_witness :
    (let r1 := PoolAllocator.createDefault.allocate 0 1024
     let r2 := PoolAllocator.createDefault.allocate r1.2.2 1024
     let r3 := r2.2.1.allocate r2.2.2 10240
     let mem1 := writeBytes memZero r1.1 [239, 190, 173, 186]
     let mem2 := writeBytes mem1 r2.1 (List.replicate 1024 184)
     let mem3 := writeBytes mem2 r3.1 (List.replicate 10240 184)
     let mem4 := r3.2.1.destroy mem3
     readBytes mem4 r1.1 4 = [239, 190, 173, 186]) :=
  c5_cross_arena_frame [239, 190, 173, 186] (List.replicate 1024 184)
    (List.replicate 10240 184) memZero rfl (by rw [List.length_replicate])
    (by rw [List.length_replicate])

/-- C6: with guard-block mode enabled, a write that starts inside an
allocation and runs past its requested size (with bytes differing from the
sentinel pattern, i.e. actually corrupting the sentinel) makes the next
integrity check report corruption, so any subsequent allocation and the arena
teardown both fail with the fatal corruption error; nothing is repaired. -/
theorem c6_guard_overflow_detected (pageSize alignment sys0 : Nat) (mem0 : Mem)
    (size w : Nat) (bytes : List Nat) (a : Nat) (g1 : GuardedPoolAllocator)
    (sys1 : Nat) (mem1 : Mem)
    (halloc : (GuardedPoolAllocator.create pageSize alignment).allocate sys0 mem0 size
        = .ok (a, g1, sys1, mem1))
    (hw1 : a ≤ w) (hw2 : w ≤ a + size) (hw3 : a + size < w + bytes.length)
    (hbytes : ∀ b ∈ bytes, b ≠ kGuardBlockPattern) :
    g1.checkIntegrity (writeBytes mem1 w bytes) = false
    ∧ (∀ size2 : Nat, g1.allocate sys1 (writeBytes mem1 w bytes) size2
        = .error PoolError.corruptionDetected)
    ∧ g1.destroy (writeBytes mem1 w bytes) = .error PoolError.corruptionDetected := by
  have hck : (GuardedPoolAllocator.create pageSize alignment).checkIntegrity mem0 = true := rfl
  unfold GuardedPoolAllocator.allocate at halloc
  rw [if_pos hck] at halloc
  simp only [Except.ok.injEq, Prod.mk.injEq] at halloc
  obtain ⟨ha1, hg, _, _⟩ := halloc
  have hg1 : g1.mAllocs = [(a, size)] := by
    rw [← hg, ← ha1]
    exact rfl
  have hbyte : writeBytes mem1 w bytes (a + size) = bytes.getD (a + size - w) 0 :=
    writeBytes_inside mem1 w bytes (a + size) hw2 hw3
  have hlt : a + size - w < bytes.length := by omega
  have hmem : bytes.getD (a + size - w) 0 ∈ bytes := by
    rw [List.getD_eq_getElem bytes 0 hlt]
    exact List.getElem_mem hlt
  have hne : writeBytes mem1 w bytes (a + size) ≠ kGuardBlockPattern := by
    rw [hbyte]
    exact hbytes _ hmem
  have hfail : g1.checkIntegrity (writeBytes mem1 w bytes) = false := by
    unfold GuardedPoolAllocator.checkIntegrity
    rw [hg1]
    simp only [List.all_cons, List.all_nil, Bool.and_true]
    unfold guardsIntact
    have hback : ((List.range kGuardBlockSize).all fun i =>
        writeBytes mem1 w bytes (a + size + i) == kGuardBlockPattern) = false := by
      rw [List.all_eq_false]
      refine ⟨0, by simp [kGuardBlockSize], ?_⟩
      simp only [Nat.add_zero, beq_iff_eq]
      exact hne
    rw [hback, Bool.and_false]
  refine ⟨hfail, ?_, ?_⟩
  · intro s2
    unfold GuardedPoolAllocator.allocate
    rw [if_neg (by simp [hfail])]
  · unfold GuardedPoolAllocator.destroy
    rw [if_neg (by simp [hfail])]

/-- Closed instance of c6_guard_overflow_detected: an 8-byte allocation in a
fresh guarded arena, then a one-byte 0xb8 write just past its requested
size. -/
theorem c6_guard_overflow_detected_witness :
    (GuardedPoolAllocator.mk
        (PoolAllocator.mk 16 8192 [PoolPage.mk 0 8192] 0 8192 40)
        [(16, 8)]).checkIntegrity (writeBytes (initGuards memZero 16 8) 24 [184]) = false
    ∧ (∀ size2 : Nat,
        (GuardedPoolAllocator.mk
            (PoolAllocator.mk 16 8192 [PoolPage.mk 0 8192] 0 8192 40)
            [(16, 8)]).allocate 8192 (writeBytes (initGuards memZero 16 8) 24 [184]) size2
          = .error PoolError.corruptionDetected)
    ∧ (GuardedPoolAllocator.mk
        (PoolAllocator.mk 16 8192 [PoolPage.mk 0 8192] 0 8192 40)
        [(16, 8)]).destroy (writeBytes (initGuards memZero 16 8) 24 [184])
      = .error PoolError.corruptionDetected :=
  c6_guard_overflow_detected 8192 16 0 memZero 8 24 [184] 16
    (GuardedPoolAllocator.mk
      (PoolAllocator.mk 16 8192 [PoolPage.mk 0 8192] 0 8192 40) [(16, 8)])
    8192 (initGuards memZero 16 8) rfl (by decide) (by decide) (by decide) (by decide)

end angle

namespace sh

theorem typesFor_request (p : WGSLProgramPrelude) (k2 k : UnaryOpKind) (t : TType) :
    ((p.request k2 t).2).typesFor k =
      if k2 = k then insertTypeDedup (p.typesFor k) t else p.typesFor k := by
  cases k2 <;> cases k <;>
    simp [WGSLProgramPrelude.request, WGSLProgramPrelude.preIncrement,
      WGSLProgramPrelude.preDecrement, WGSLProgramPrelude.postIncrement,
      WGSLProgramPrelude.postDecrement, WGSLProgramPrelude.typesFor]

theorem runRequestsFrom_cons (p : WGSLProgramPrelude) (r : UnaryOpKind × TType)
    (reqs : List (UnaryOpKind × TType)) :
    runRequestsFrom p (r :: reqs) = runRequestsFrom (p.request r.1 r.2).2 reqs := rfl

theorem typesFor_runRequestsFrom (reqs : List (UnaryOpKind × TType)) :
    ∀ (p : WGSLProgramPrelude) (k : UnaryOpKind),
      (runRequestsFrom p reqs).typesFor k =
        (requestedTypes reqs k).foldl insertTypeDedup (p.typesFor k) := by
  induction reqs with
  | nil => intro p k; rfl
  | cons r reqs ih =>
    intro p k
    rw [runRequestsFrom_cons, ih, typesFor_request]
    by_cases hk : r.1 = k
    · rw [if_pos hk]
      simp [requestedTypes, List.filterMap_cons, hk]
    · rw [if_neg hk]
      simp [requestedTypes, List.filterMap_cons, hk]

theorem foldl_insertTypeDedup (ts : List TType) : ∀ (l : List TType),
    ts.foldl insertTypeDedup l = l ++ (firstRegistered ts).filter (fun u => u ∉ l) := by
  induction ts with
  | nil => intro l; simp [firstRegistered]
  | cons t ts ih =>
    intro l
    rw [List.foldl_cons]
    by_cases ht : t ∈ l
    · rw [show insertTypeDedup l t = l from if_pos ht, ih]
      congr 1
      simp only [firstRegistered]
      rw [List.filter_cons, if_neg (by simp [ht]), List.filter_filter]
      apply List.filter_congr
      intro u _
      by_cases hul : u ∈ l
      · simp [hul]
      · have hut : u ≠ t := fun h => hul (h ▸ ht)
        simp [hul, hut]
    · rw [show insertTypeDedup l t = l ++ [t] from if_neg ht, ih, List.append_assoc]
      congr 1
      simp only [firstRegistered]
      rw [List.filter_cons, if_pos (by simp [ht]), List.singleton_append]
      congr 1
      rw [List.filter_filter]
      apply List.filter_congr
      intro u _
      by_cases hul : u ∈ l <;> by_cases hut : u = t <;>
        simp [hul, hut, List.mem_append]

theorem firstRegistered_eq_foldl (ts : List TType) :
    ts.foldl insertTypeDedup [] = firstRegistered ts := by
  rw [foldl_insertTypeDedup]
  simp

theorem typesFor_empty (k : UnaryOpKind) : WGSLProgramPrelude.empty.typesFor k = [] := by
  cases k <;> rfl

theorem typesFor_runRequests (reqs : List (UnaryOpKind × TType)) (k : UnaryOpKind) :
    (runRequests reqs).typesFor k = firstRegistered (requestedTypes reqs k) := by
  unfold runRequests
  rw [typesFor_runRequestsFrom, typesFor_empty, firstRegistered_eq_foldl]

/-- C1: for every sequence of wrapper registrations, the emitted prelude is
the list of generated function definitions grouped by operation kind in the
fixed declared order, and within each kind in first-registration (insertion)
order; in particular registering pre-increment for int and then
post-decrement for float emits exactly those two definitions in that
order. -/
theorem c1_prelude_deterministic_order :
    (∀ reqs : List (UnaryOpKind × TType),
      (runRequests reqs).preludeFunctions =
        (opKindList.map fun k =>
          (firstRegistered (requestedTypes reqs k)).map (wrapperDefinition k)).flatten)
    ∧ (runRequests [(UnaryOpKind.preIncrement, TType.int),
          (UnaryOpKind.postDecrement, TType.float)]).preludeFunctions =
        [wrapperDefinition UnaryOpKind.preIncrement TType.int,
          wrapperDefinition UnaryOpKind.postDecrement TType.float] := by
  constructor
  · intro reqs
    unfold WGSLProgramPrelude.preludeFunctions
    congr 1
    apply List.map_congr_left
    intro k _
    rw [typesFor_runRequests]
  · rfl

end sh

namespace sh

theorem request_fst (p : WGSLProgramPrelude) (k : UnaryOpKind) (t : TType) :
    (p.request k t).1 = wrapperFragments k t := by
  cases k <;> rfl

theorem mem_insertTypeDedup_self (l : List TType) (t : TType) :
    t ∈ insertTypeDedup l t := by
  unfold insertTypeDedup
  by_cases h : t ∈ l
  · rw [if_pos h]; exact h
  · rw [if_neg h]; simp

theorem insertTypeDedup_twice (l : List TType) (t : TType) :
    insertTypeDedup (insertTypeDedup l t) t = insertTypeDedup l t :=
  if_pos (mem_insertTypeDedup_self l t)

theorem nodup_insertTypeDedup (l : List TType) (t : TType) (h : l.Nodup) :
    (insertTypeDedup l t).Nodup := by
  unfold insertTypeDedup
  by_cases ht : t ∈ l
  · rw [if_pos ht]; exact h
  · rw [if_neg ht]
    refine h.append (List.nodup_singleton t) ?_
    intro a ha hat
    rw [List.mem_singleton] at hat
    subst hat
    exact ht ha

theorem nodup_foldl_insertTypeDedup (ts : List TType) : ∀ l : List TType, l.Nodup →
    (ts.foldl insertTypeDedup l).Nodup := by
  induction ts with
  | nil => intro l h; exact h
  | cons t ts ih =>
    intro l h
    rw [List.foldl_cons]
    exact ih _ (nodup_insertTypeDedup l t h)

theorem nodup_typesFor_runRequests (reqs : List (UnaryOpKind × TType)) (k : UnaryOpKind) :
    ((runRequests reqs).typesFor k).Nodup := by
  unfold runRequests
  rw [typesFor_runRequestsFrom, typesFor_empty]
  exact nodup_foldl_insertTypeDedup _ [] List.nodup_nil

theorem wrapperDefinition_inj (k1 k2 : UnaryOpKind) (t1 t2 : TType)
    (h : wrapperDefinition k1 t1 = wrapperDefinition k2 t2) : k1 = k2 ∧ t1 = t2 := by
  revert h
  cases k1 <;> cases k2 <;> cases t1 <;> cases t2 <;> decide

theorem count_typesFor_after_request (reqs : List (UnaryOpKind × TType))
    (k : UnaryOpKind) (t : TType) :
    ((((runRequests reqs).request k t).2).typesFor k).count t = 1 := by
  rw [typesFor_request, if_pos rfl]
  exact List.count_eq_one_of_mem
    (nodup_insertTypeDedup _ t (nodup_typesFor_runRequests reqs k))
    (mem_insertTypeDedup_self _ t)

theorem count_preludeFunctions_after_request (reqs : List (UnaryOpKind × TType))
    (k : UnaryOpKind) (t : TType) :
    ((((runRequests reqs).request k t).2).preludeFunctions).count (wrapperDefinition k t)
      = 1 := by
  have hcnt : ∀ k2 : UnaryOpKind,
      ((((((runRequests reqs).request k t).2).typesFor k2).map
          (wrapperDefinition k2)).count (wrapperDefinition k t))
        = if k2 = k then 1 else 0 := by
    intro k2
    by_cases hk : k2 = k
    · rw [if_pos hk, hk,
        List.count_map_of_injective _ _
          (fun a b hab => (wrapperDefinition_inj _ _ _ _ hab).2) t]
      exact count_typesFor_after_request reqs k t
    · rw [if_neg hk, List.count_eq_zero]
      intro hmem
      obtain ⟨t3, _, heq⟩ := List.mem_map.mp hmem
      exact hk (wrapperDefinition_inj _ _ _ _ heq).1
  unfold WGSLProgramPrelude.preludeFunctions opKindList
  simp only [List.map_cons, List.map_nil, List.flatten_cons, List.flatten_nil,
    List.append_nil, List.count_append]
  rw [hcnt, hcnt, hcnt, hcnt]
  cases k <;> simp

/-- C2: requesting a wrapper is idempotent: a second request for the same
(operation kind, operand type) pair returns the same fragment pair and leaves
the accumulator unchanged, the pair has exactly one registered entry and
exactly one emitted wrapper definition in the prelude, and distinct operand
types under the same kind yield distinct wrapper definitions. -/
theorem c2_request_idempotent (reqs : List (UnaryOpKind × TType)) (k : UnaryOpKind)
    (t t2 : TType) :
    ((runRequests reqs).request k t).1 = (((runRequests reqs).request k t).2.request k t).1
    ∧ (((runRequests reqs).request k t).2.request k t).2 = ((runRequests reqs).request k t).2
    ∧ ((((runRequests reqs).request k t).2).typesFor k).count t = 1
    ∧ ((((runRequests reqs).request k t).2).preludeFunctions).count (wrapperDefinition k t)
        = 1
    ∧ (t ≠ t2 → wrapperDefinition k t ≠ wrapperDefinition k t2) := by
  refine ⟨?_, ?_, count_typesFor_after_request reqs k t,
    count_preludeFunctions_after_request reqs k t, ?_⟩
  · rw [request_fst, request_fst]
  · cases k <;>
      simp [WGSLProgramPrelude.request, WGSLProgramPrelude.preIncrement,
        WGSLProgramPrelude.preDecrement, WGSLProgramPrelude.postIncrement,
        WGSLProgramPrelude.postDecrement, insertTypeDedup_twice]
  · intro hne heq
    exact hne (wrapperDefinition_inj _ _ _ _ heq).2

/-- Closed instance of c2_request_idempotent: pre-increment of int requested
twice from a fresh bridge, compared against float. -/
theorem c2_request_idempotent_witness :
    ((runRequests []).request UnaryOpKind.preIncrement TType.int).1
        = (((runRequests []).request UnaryOpKind.preIncrement TType.int).2.request
            UnaryOpKind.preIncrement TType.int).1
    ∧ (((runRequests []).request UnaryOpKind.preIncrement TType.int).2.request
          UnaryOpKind.preIncrement TType.int).2
        = ((runRequests []).request UnaryOpKind.preIncrement TType.int).2
    ∧ ((((runRequests []).request UnaryOpKind.preIncrement TType.int).2).typesFor
          UnaryOpKind.preIncrement).count TType.int = 1
    ∧ ((((runRequests []).request UnaryOpKind.preIncrement TType.int).2).preludeFunctions).count
          (wrapperDefinition UnaryOpKind.preIncrement TType.int) = 1
    ∧ (TType.int ≠ TType.float →
        wrapperDefinition UnaryOpKind.preIncrement TType.int
          ≠ wrapperDefinition UnaryOpKind.preIncrement TType.float) :=
  c2_request_idempotent [] UnaryOpKind.preIncrement TType.int TType.float

end sh
